import Mathlib

/-!
Verification of the camera streaming subsystem of SimpleBooth (src/app.py):
the MJPEG stream demuxer inside generate_video_stream, the process
supervisor (stop_camera_process and the ensure-started block), the frame
cache read by capture_photo, and the liveness probe camera_status.

Bytes are modelled as natural numbers and Python bytes objects as lists of
naturals.  The JPEG start marker b"\xff\xd8" is [255, 216] and the end
marker b"\xff\xd9" is [255, 217].
-/

namespace SimpleBooth

/-- Model of Python bytes.find for a nonempty pattern: least index at which
the pattern occurs in the list, or none when it does not occur
(Python returns -1). -/
def findPat (pat : List Nat) : List Nat → Option Nat
  | [] => none
  | a :: t => if pat.isPrefixOf (a :: t) then some 0 else (findPat pat t).map (· + 1)

/-- Model of Python bytes.rfind for a nonempty pattern: greatest index at
which the pattern occurs, or none when it does not occur. -/
def rfindPat (pat : List Nat) : List Nat → Option Nat
  | [] => none
  | a :: t =>
    match rfindPat pat t with
    | some j => some (j + 1)
    | none => if pat.isPrefixOf (a :: t) then some 0 else none

/-- The JPEG start-of-image marker b"\xff\xd8" scanned for in app.py. -/
def startMarker : List Nat := [255, 216]

/-- The JPEG end-of-image marker b"\xff\xd9" scanned for in app.py. -/
def endMarker : List Nat := [255, 217]

/-- A two-byte pattern is a Boolean prefix of a list exactly when the list
starts with those two bytes. -/
theorem isPrefixOf_pair (x y : Nat) (l : List Nat) :
    [x, y].isPrefixOf l = true ↔ ∃ t, l = x :: y :: t := by
  match l with
  | [] => simp [List.isPrefixOf]
  | [a] => simp [List.isPrefixOf]
  | a :: b :: t =>
    simp only [List.isPrefixOf, List.isPrefixOf_nil_left, Bool.and_true, Bool.and_eq_true,
      beq_iff_eq]
    constructor
    · rintro ⟨h1, h2⟩
      exact ⟨t, by rw [h1, h2]⟩
    · rintro ⟨t', ht⟩
      cases ht
      exact ⟨rfl, rfl⟩

/-- Successful findPat for a two-byte pattern: the match is inside the list
and the list decomposes at the found index. -/
theorem findPat_pair_eq (x y : Nat) : ∀ (buf : List Nat) (s : Nat),
    findPat [x, y] buf = some s →
    s + 2 ≤ buf.length ∧ buf.drop s = x :: y :: buf.drop (s + 2) := by
  intro buf
  induction buf with
  | nil => intro s h; simp [findPat] at h
  | cons a t ih =>
    intro s h
    by_cases hp : [x, y].isPrefixOf (a :: t)
    · rw [findPat, if_pos hp] at h
      obtain rfl : (0 : Nat) = s := by injection h
      obtain ⟨t', ht⟩ := (isPrefixOf_pair x y (a :: t)).1 hp
      rw [ht]
      simp
    · rw [findPat, if_neg hp] at h
      obtain ⟨j, hj, rfl⟩ : ∃ j, findPat [x, y] t = some j ∧ j + 1 = s := by
        cases hfj : findPat [x, y] t with
        | none => rw [hfj] at h; simp at h
        | some j => rw [hfj] at h; simp at h; exact ⟨j, rfl, h⟩
      obtain ⟨hle, hdrop⟩ := ih j hj
      constructor
      · simp only [List.length_cons]; omega
      · simpa using hdrop

/-- The frame-extraction inner loop of generate_video_stream (src/app.py,
the `while True` over `buffer`): repeatedly find the start marker (clearing
the buffer when absent), discard bytes before it, find the end marker from
two bytes past the start, stop when absent, otherwise slice out the frame,
keep the remainder, and emit the frame unless it is shorter than the
minimum plausible size.  Returns the retained buffer and the emitted
frames in order. -/
def extractFrames (m : Nat) (buf : List Nat) : List Nat × List (List Nat) :=
  match h1 : findPat startMarker buf with
  | none => ([], [])
  | some s =>
    match h2 : findPat endMarker ((buf.drop s).drop 2) with
    | none => (buf.drop s, [])
    | some j =>
      if ((buf.drop s).take (j + 4)).length < m then
        extractFrames m ((buf.drop s).drop (j + 4))
      else
        ((extractFrames m ((buf.drop s).drop (j + 4))).1,
          (buf.drop s).take (j + 4) :: (extractFrames m ((buf.drop s).drop (j + 4))).2)
termination_by buf.length
decreasing_by
all_goals
  have hb := findPat_pair_eq 255 216 buf s (by simpa [startMarker] using h1)
  simp only [List.length_drop]
  omega

/-- Unfolding: when no start marker occurs, the buffer is cleared and
nothing is emitted (the branch of app.py that clears the buffer). -/
theorem extractFrames_no_start (m : Nat) (buf : List Nat)
    (h : findPat startMarker buf = none) :
    extractFrames m buf = ([], []) := by
  rw [extractFrames]
  split
  · rfl
  · rename_i s hs; rw [h] at hs; cases hs

/-- Unfolding: a start marker but no end marker keeps the buffer from the
start marker on and emits nothing (the `end == -1: break` branch). -/
theorem extractFrames_no_end (m : Nat) (buf : List Nat) (s : Nat)
    (h1 : findPat startMarker buf = some s)
    (h2 : findPat endMarker ((buf.drop s).drop 2) = none) :
    extractFrames m buf = (buf.drop s, []) := by
  rw [extractFrames]
  split
  · rename_i hs; rw [h1] at hs; cases hs
  · rename_i s' hs
    rw [h1] at hs
    injection hs with hs
    subst hs
    split
    · rfl
    · rename_i j hj; rw [h2] at hj; cases hj

/-- Unfolding: a complete frame is sliced out; it is prepended to the
emitted frames when it reaches the minimum size and skipped otherwise,
and extraction continues on the remaining buffer. -/
theorem extractFrames_step (m : Nat) (buf : List Nat) (s j : Nat)
    (h1 : findPat startMarker buf = some s)
    (h2 : findPat endMarker ((buf.drop s).drop 2) = some j) :
    extractFrames m buf =
      if ((buf.drop s).take (j + 4)).length < m then
        extractFrames m ((buf.drop s).drop (j + 4))
      else
        ((extractFrames m ((buf.drop s).drop (j + 4))).1,
          (buf.drop s).take (j + 4) :: (extractFrames m ((buf.drop s).drop (j + 4))).2) := by
  rw [extractFrames]
  split
  · rename_i hs; rw [h1] at hs; cases hs
  · rename_i s' hs
    rw [h1] at hs
    injection hs with hs
    subst hs
    split
    · rename_i hj; rw [h2] at hj; cases hj
    · rename_i j' hj
      rw [h2] at hj
      injection hj with hj
      subst hj
      rfl

/-- The buffer size cap of app.py: `if len(buffer) > 2000000`, drop
everything before the last start marker, but only when rfind returned a
strictly positive index (`if last_start > 0`). -/
def capTrim (cap : Nat) (buf : List Nat) : List Nat :=
  if buf.length > cap then
    match rfindPat startMarker buf with
    | some k => if k > 0 then buf.drop k else buf
    | none => buf
  else buf

/-- One iteration of the outer read loop of generate_video_stream: append
the chunk read from the process stdout, apply the size cap, then run the
frame-extraction loop. -/
def processChunk (cap m : Nat) (buf chunk : List Nat) : List Nat × List (List Nat) :=
  extractFrames m (capTrim cap (buf ++ chunk))

/-- Run the demux loop over a sequence of chunks starting from a given
buffer, collecting all emitted frames in order. -/
def runDemux (cap m : Nat) (buf : List Nat) : List (List Nat) → List Nat × List (List Nat)
  | [] => (buf, [])
  | c :: cs =>
    ((runDemux cap m (processChunk cap m buf c).1 cs).1,
      (processChunk cap m buf c).2 ++ (runDemux cap m (processChunk cap m buf c).1 cs).2)

/-- The stream demuxer of generate_video_stream: start from the empty
buffer (the cleared buffer of app.py) and feed the chunk sequence.  In app.py the cap is
2000000 bytes and the minimum plausible frame size is 5000 bytes. -/
def demux (cap m : Nat) (chunks : List (List Nat)) : List Nat × List (List Nat) :=
  runDemux cap m [] chunks

/-! ## Process supervisor model (stop_camera_process and the
ensure-started block of generate_video_stream, src/app.py) -/

/-- A tracked external capture process as seen at the startup health
check: whether it already exited, and the text readable from its stderr
pipe. -/
structure CaptureProc where
  exited : Bool
  stderrText : String
deriving DecidableEq

/-- The startup health check of generate_video_stream: after the settle
delay, if the tracked process is gone or has exited, raise an exception
whose message carries the captured stderr text. -/
def startupProbe (p : Option CaptureProc) : Except String Unit :=
  match p with
  | none => Except.error ("La camera n a pas pu demarrer: " ++ "")
  | some q =>
    if q.exited then Except.error ("La camera n a pas pu demarrer: " ++ q.stderrText)
    else Except.ok ()

/-- A single event sent over the multipart HTTP stream: either a JPEG
image frame or the plain-text error frame produced by the except-branch
of generate_video_stream. -/
inductive StreamEvent where
  | imageFrame (bytes : List Nat)
  | errorFrame (msg : String)
deriving DecidableEq

/-- The startup portion of generate_video_stream as seen by the HTTP
consumer: when the startup probe raises, the except-branch yields exactly
one plain-text error frame prefixed "Erreur camera: " in place of the
image frames; otherwise the stream of demuxed frames follows. -/
def streamStartup (p : Option CaptureProc) (rest : List StreamEvent) : List StreamEvent :=
  match startupProbe p with
  | Except.error e => [StreamEvent.errorFrame ("Erreur camera: " ++ e)]
  | Except.ok _ => rest

/-- The module-level tracked handles of app.py: camera_process and
usb_camera. -/
structure CameraState where
  camera_process : Option CaptureProc
  usb_camera : Option Nat
deriving DecidableEq

/-- Whether calling terminate-then-wait on the handle raises (for example
a wait timeout), and whether the kill fallback raises too. -/
structure StopBehavior where
  terminateRaises : Bool
  killRaises : Bool
deriving DecidableEq

/-- Model of `camera_process.terminate(); camera_process.wait(timeout=1)`. -/
def terminateAttempt (b : StopBehavior) : Except String Unit :=
  if b.terminateRaises then Except.error "terminate failed" else Except.ok ()

/-- Model of the fallback `camera_process.kill(); camera_process.wait(timeout=1)`. -/
def killAttempt (b : StopBehavior) : Except String Unit :=
  if b.killRaises then Except.error "kill failed" else Except.ok ()

/-- stop_camera_process (src/app.py): under camera_lock, stop the USB
camera swallowing errors and clear usb_camera; if a process is tracked,
try terminate-and-wait, on failure try kill-and-wait, on failure pass;
in every path set camera_process to None, then sweep zombie processes.
The result is the Except value observed by the caller together with the
final tracked state. -/
def stop_camera_process (st : CameraState) (b : StopBehavior) :
    Except String CameraState :=
  match st.camera_process with
  | none => Except.ok { camera_process := none, usb_camera := none }
  | some _ =>
    match terminateAttempt b with
    | Except.ok _ => Except.ok { camera_process := none, usb_camera := none }
    | Except.error _ =>
      match killAttempt b with
      | Except.ok _ => Except.ok { camera_process := none, usb_camera := none }
      | Except.error _ => Except.ok { camera_process := none, usb_camera := none }

/-- A live external capture process as tracked by the ensure-started block:
its identity and whether `poll()` reports it still running. -/
structure TrackedProc where
  pid : Nat
  alive : Bool
deriving DecidableEq

/-- The ensure-started block of generate_video_stream (under camera_lock):
if a process is tracked and `poll()` returns None, reuse it and spawn
nothing; otherwise clean any dead handle and spawn a fresh process.
Returns the tracked handle afterwards and whether a spawn happened. -/
def ensure_started (tracked : Option TrackedProc) (freshPid : Nat) :
    Option TrackedProc × Bool :=
  match tracked with
  | some p =>
    if p.alive then (some p, false)
    else (some { pid := freshPid, alive := true }, true)
  | none => (some { pid := freshPid, alive := true }, true)

/-! ## Frame cache and liveness probe (capture_photo, camera_status) -/

/-- The module-level frame cache of app.py: last_frame (initially None)
and last_frame_time (initially 0). -/
structure FrameCache where
  last_frame : Option (List Nat)
  last_frame_time : Nat
deriving DecidableEq

/-- The initial module state: `last_frame = None`, `last_frame_time = 0`. -/
def initialCache : FrameCache :=
  { last_frame := none, last_frame_time := 0 }

/-- The cache update performed by the Pi-camera branch of
generate_video_stream under frame_lock: store the frame and refresh
last_frame_time with the current time. -/
def cacheUpdatePi (_c : FrameCache) (f : List Nat) (now : Nat) : FrameCache :=
  { last_frame := some f, last_frame_time := now }

/-- The cache update performed by the USB branch of generate_video_stream
under frame_lock: store the frame; last_frame_time is not touched. -/
def cacheUpdateUsb (c : FrameCache) (f : List Nat) : FrameCache :=
  { c with last_frame := some f }

/-- Result of the frame-cache read in capture_photo: either the cached
bytes are written out, or the explicit `Aucune frame disponible` error
response. -/
inductive CaptureResult where
  | saved (bytes : List Nat)
  | unavailable
deriving DecidableEq

/-- The frame-cache read of capture_photo (src/app.py, USB and fallback
paths): under frame_lock, if last_frame is not None return its bytes,
else return the explicit unavailable error. -/
def capture_photo_read (c : FrameCache) : CaptureResult :=
  match c.last_frame with
  | some b => CaptureResult.saved b
  | none => CaptureResult.unavailable

/-- The liveness probe of camera_status (src/app.py): active exactly when
`current_time - last_frame_time < 3`. -/
def camera_status_active (lastFrameTime now : Nat) : Bool :=
  now - lastFrameTime < 3

/-! ## Streaming loops with cache updates (C10) -/

/-- One observation of the streaming loop at a yield point: the cache
contents at the moment of the yield, the yielded frame bytes, and the
wall-clock time of that iteration. -/
structure YieldEvent where
  cacheAtYield : FrameCache
  yielded : List Nat
  now : Nat
deriving DecidableEq

/-- The Pi-camera streaming loop of generate_video_stream applied to the
demuxed frames, each paired with the time at which it is handled: update
the cache (frame bytes and timestamp) under frame_lock, then yield. -/
def piStreamLoop (c : FrameCache) : List (List Nat × Nat) → List YieldEvent
  | [] => []
  | (f, t) :: rest =>
    { cacheAtYield := cacheUpdatePi c f t, yielded := f, now := t }
      :: piStreamLoop (cacheUpdatePi c f t) rest

/-- The USB streaming loop of generate_video_stream: poll get_frame; on
None sleep and retry, otherwise store the frame under frame_lock (without
touching last_frame_time) and yield it. -/
def usbStreamLoop (c : FrameCache) : List (Option (List Nat) × Nat) → List YieldEvent
  | [] => []
  | (none, _) :: rest => usbStreamLoop c rest
  | (some f, t) :: rest =>
    { cacheAtYield := cacheUpdateUsb c f, yielded := f, now := t }
      :: usbStreamLoop (cacheUpdateUsb c f) rest

/-- findPat finds a two-byte pattern sitting at the head immediately. -/
theorem findPat_cons_pair (x y : Nat) (t : List Nat) :
    findPat [x, y] (x :: y :: t) = some 0 := by
  rw [findPat, if_pos ((isPrefixOf_pair x y _).2 ⟨t, rfl⟩)]

/-- The first occurrence of a two-byte pattern is unchanged by appending
more bytes on the right. -/
theorem findPat_append_first (x y : Nat) : ∀ (b c : List Nat) (s : Nat),
    findPat [x, y] b = some s → findPat [x, y] (b ++ c) = some s := by
  intro b
  induction b with
  | nil => intro c s h; simp [findPat] at h
  | cons a t ih =>
    intro c s h
    by_cases hp : [x, y].isPrefixOf (a :: t)
    · rw [findPat, if_pos hp] at h
      obtain rfl : (0 : Nat) = s := by injection h
      obtain ⟨t', ht⟩ := (isPrefixOf_pair x y (a :: t)).1 hp
      cases ht
      simpa using findPat_cons_pair x y (t' ++ c)
    · rw [findPat, if_neg hp] at h
      obtain ⟨j, hj, rfl⟩ : ∃ j, findPat [x, y] t = some j ∧ j + 1 = s := by
        cases hfj : findPat [x, y] t with
        | none => rw [hfj] at h; simp at h
        | some j => rw [hfj] at h; simp at h; exact ⟨j, rfl, h⟩
      have hlen := (findPat_pair_eq x y t j hj).1
      have hp2 : ¬ [x, y].isPrefixOf (a :: (t ++ c)) = true := by
        intro hcon
        obtain ⟨t'', ht''⟩ := (isPrefixOf_pair x y _).1 hcon
        apply hp
        apply (isPrefixOf_pair x y (a :: t)).2
        injection ht'' with hax htl
        cases t with
        | nil => simp at hlen
        | cons t0 ts =>
          simp only [List.cons_append] at htl
          injection htl with hty _
          exact ⟨ts, by rw [hax, hty]⟩
      rw [List.cons_append, findPat, if_neg hp2, ih c j hj]
      rfl

/-- Appending to a list free of the two-byte pattern shifts the first
occurrence by its length, provided the pattern does not straddle the
append boundary. -/
theorem findPat_append_none (x y : Nat) : ∀ (b c : List Nat),
    findPat [x, y] b = none →
    ¬(b.getLast? = some x ∧ c.head? = some y) →
    findPat [x, y] (b ++ c) = (findPat [x, y] c).map (· + b.length) := by
  intro b
  induction b with
  | nil =>
    intro c _ _
    cases hfc : findPat [x, y] c <;> simp [hfc]
  | cons a t ih =>
    intro c h hstr
    have hp : ¬ [x, y].isPrefixOf (a :: t) = true := by
      intro hcon
      rw [findPat, if_pos hcon] at h
      cases h
    have ht : findPat [x, y] t = none := by
      rw [findPat, if_neg hp] at h
      cases hfj : findPat [x, y] t with
      | none => rfl
      | some j => rw [hfj] at h; simp at h
    have hstr' : ¬(t.getLast? = some x ∧ c.head? = some y) := by
      rintro ⟨h1, h2⟩
      apply hstr
      refine ⟨?_, h2⟩
      cases t with
      | nil => simp at h1
      | cons t0 ts => rw [List.getLast?_cons_cons]; exact h1
    have hp2 : ¬ [x, y].isPrefixOf (a :: (t ++ c)) = true := by
      intro hcon
      obtain ⟨t'', ht''⟩ := (isPrefixOf_pair x y _).1 hcon
      injection ht'' with hax htl
      cases t with
      | nil =>
        apply hstr
        constructor
        · simp [hax]
        · simp only [List.nil_append] at htl
          rw [htl]
          rfl
      | cons t0 ts =>
        apply hp
        apply (isPrefixOf_pair x y (a :: t0 :: ts)).2
        simp only [List.cons_append] at htl
        injection htl with hty _
        exact ⟨ts, by rw [hax, hty]⟩
    rw [List.cons_append, findPat, if_neg hp2, ih c ht hstr']
    cases hfc : findPat [x, y] c <;> simp [List.length_cons]
    omega

/-- A nonempty drop of a list has the same last element as the list. -/
theorem getLast?_drop_eq (l : List Nat) (k : Nat) (h : l.drop k ≠ []) :
    (l.drop k).getLast? = l.getLast? := by
  conv_rhs => rw [← List.take_append_drop k l]
  rw [List.getLast?_append_of_ne_nil _ h]

/-- extractFrames only looks at the buffer from its first start marker on:
two buffers that agree there extract identically. -/
theorem extractFrames_congr (m : Nat) (x y : List Nat) (s t : Nat)
    (hx : findPat startMarker x = some s) (hy : findPat startMarker y = some t)
    (hd : x.drop s = y.drop t) :
    extractFrames m x = extractFrames m y := by
  cases h2 : findPat endMarker ((x.drop s).drop 2) with
  | none =>
    rw [extractFrames_no_end m x s hx h2,
      extractFrames_no_end m y t hy (by rw [← hd]; exact h2), hd]
  | some j =>
    rw [extractFrames_step m x s j hx h2,
      extractFrames_step m y t j hy (by rw [← hd]; exact h2), hd]

/-- Composition of the extraction loop across an append: feeding b then c
emits the frames of b followed by the frames of the retained buffer
prolonged by c, provided no start marker straddles the boundary between
the retained data and c.  This is the heart of chunk-boundary behaviour. -/
theorem extractFrames_append (m : Nat) (b c : List Nat)
    (hb : ¬(b.getLast? = some 255 ∧ c.head? = some 216)) :
    extractFrames m (b ++ c)
      = ((extractFrames m ((extractFrames m b).1 ++ c)).1,
        (extractFrames m b).2 ++ (extractFrames m ((extractFrames m b).1 ++ c)).2) := by
  cases h1 : findPat startMarker b with
  | none =>
    rw [extractFrames_no_start m b h1]
    simp only [List.nil_append]
    have hnone := findPat_append_none 255 216 b c (by simpa [startMarker] using h1) hb
    cases h2 : findPat startMarker c with
    | none =>
      have h3 : findPat startMarker (b ++ c) = none := by
        show findPat [255, 216] (b ++ c) = none
        rw [hnone]
        have h2' : findPat [255, 216] c = none := by simpa [startMarker] using h2
        rw [h2']
        rfl
      rw [extractFrames_no_start m _ h3, extractFrames_no_start m c h2]
    | some t =>
      have h3 : findPat startMarker (b ++ c) = some (t + b.length) := by
        show findPat [255, 216] (b ++ c) = some (t + b.length)
        rw [hnone]
        have h2' : findPat [255, 216] c = some t := by simpa [startMarker] using h2
        rw [h2']
        rfl
      have hd : (b ++ c).drop (t + b.length) = c.drop t := by
        rw [Nat.add_comm, List.drop_append]
      rw [extractFrames_congr m (b ++ c) c _ _ h3 h2 hd]
  | some s =>
    have h1' : findPat [255, 216] b = some s := by simpa [startMarker] using h1
    obtain ⟨hsl, hsd⟩ := findPat_pair_eq 255 216 b s h1'
    have hbc1 : findPat startMarker (b ++ c) = some s := by
      simpa [startMarker] using findPat_append_first 255 216 b c s h1'
    have hdropbc : (b ++ c).drop s = b.drop s ++ c :=
      List.drop_append_of_le_length (by omega)
    cases h2 : findPat endMarker ((b.drop s).drop 2) with
    | none =>
      rw [extractFrames_no_end m b s h1 h2]
      have hy : findPat startMarker (b.drop s ++ c) = some 0 := by
        rw [hsd]
        simpa [startMarker] using findPat_cons_pair 255 216 (b.drop (s + 2) ++ c)
      have hd : (b ++ c).drop s = (b.drop s ++ c).drop 0 := by
        rw [List.drop_zero, hdropbc]
      rw [extractFrames_congr m (b ++ c) (b.drop s ++ c) s 0 hbc1 hy hd]
      simp
    | some j =>
      have h2' : findPat [255, 217] ((b.drop s).drop 2) = some j := by
        simpa [endMarker] using h2
      have hjl := (findPat_pair_eq 255 217 ((b.drop s).drop 2) j h2').1
      rw [extractFrames_step m b s j h1 h2]
      have hde : ((b ++ c).drop s).drop 2 = (b.drop s).drop 2 ++ c := by
        rw [hdropbc, List.drop_append_of_le_length (by simp [List.length_drop]; omega)]
      have hbc2 : findPat endMarker (((b ++ c).drop s).drop 2) = some j := by
        rw [hde]
        simpa [endMarker] using findPat_append_first 255 217 _ c j h2'
      rw [extractFrames_step m (b ++ c) s j hbc1 hbc2]
      have htake : ((b ++ c).drop s).take (j + 4) = (b.drop s).take (j + 4) := by
        rw [hdropbc, List.take_append_of_le_length (by simp [List.length_drop] at hjl ⊢; omega)]
      have hdrop : ((b ++ c).drop s).drop (j + 4) = (b.drop s).drop (j + 4) ++ c := by
        rw [hdropbc, List.drop_append_of_le_length (by simp [List.length_drop] at hjl ⊢; omega)]
      have hrest_str :
          ¬(((b.drop s).drop (j + 4)).getLast? = some 255 ∧ c.head? = some 216) := by
        rintro ⟨hg, hh⟩
        apply hb
        refine ⟨?_, hh⟩
        have hne : (b.drop s).drop (j + 4) ≠ [] := by
          intro hemp
          rw [hemp] at hg
          cases hg
        rw [List.drop_drop] at hg hne
        rw [← getLast?_drop_eq b (s + (j + 4)) hne]
        exact hg
      have ihres := extractFrames_append m ((b.drop s).drop (j + 4)) c hrest_str
      rw [htake, hdrop]
      by_cases hm : ((b.drop s).take (j + 4)).length < m
      · simp only [if_pos hm]
        exact ihres
      · simp only [if_neg hm]
        rw [ihres]
        simp
termination_by b.length
decreasing_by
  simp only [List.length_drop]
  omega

/-- The buffer retained by the extraction loop is a fixed point: running
the loop on it again keeps it unchanged and emits nothing. -/
theorem extractFrames_leftover_fix (m : Nat) (buf : List Nat) :
    extractFrames m (extractFrames m buf).1 = ((extractFrames m buf).1, []) := by
  cases h1 : findPat startMarker buf with
  | none =>
    rw [extractFrames_no_start m buf h1]
    exact extractFrames_no_start m [] rfl
  | some s =>
    have h1' : findPat [255, 216] buf = some s := by simpa [startMarker] using h1
    obtain ⟨hsl, hsd⟩ := findPat_pair_eq 255 216 buf s h1'
    cases h2 : findPat endMarker ((buf.drop s).drop 2) with
    | none =>
      rw [extractFrames_no_end m buf s h1 h2]
      have hstart : findPat startMarker (buf.drop s) = some 0 := by
        rw [hsd]
        simpa [startMarker] using findPat_cons_pair 255 216 (buf.drop (s + 2))
      have h2' : findPat endMarker (((buf.drop s).drop 0).drop 2) = none := by
        rw [List.drop_zero]
        exact h2
      rw [extractFrames_no_end m (buf.drop s) 0 hstart h2', List.drop_zero]
    | some j =>
      rw [extractFrames_step m buf s j h1 h2]
      by_cases hm : ((buf.drop s).take (j + 4)).length < m
      · simp only [if_pos hm]
        exact extractFrames_leftover_fix m ((buf.drop s).drop (j + 4))
      · simp only [if_neg hm]
        exact extractFrames_leftover_fix m ((buf.drop s).drop (j + 4))
termination_by buf.length
decreasing_by
all_goals
  simp only [List.length_drop]
  omega

/-- The buffer retained by the extraction loop is empty or a suffix of the
input buffer. -/
theorem extractFrames_leftover_suffix (m : Nat) (buf : List Nat) :
    (extractFrames m buf).1 = [] ∨ ∃ k, (extractFrames m buf).1 = buf.drop k := by
  cases h1 : findPat startMarker buf with
  | none =>
    left
    rw [extractFrames_no_start m buf h1]
  | some s =>
    have h1' : findPat [255, 216] buf = some s := by simpa [startMarker] using h1
    obtain ⟨hsl, hsd⟩ := findPat_pair_eq 255 216 buf s h1'
    cases h2 : findPat endMarker ((buf.drop s).drop 2) with
    | none =>
      right
      exact ⟨s, by rw [extractFrames_no_end m buf s h1 h2]⟩
    | some j =>
      have hrec := extractFrames_leftover_suffix m ((buf.drop s).drop (j + 4))
      rw [extractFrames_step m buf s j h1 h2]
      by_cases hm : ((buf.drop s).take (j + 4)).length < m
      · simp only [if_pos hm]
        rcases hrec with h | ⟨k, hk⟩
        · left; exact h
        · right
          refine ⟨s + (j + 4) + k, ?_⟩
          rw [hk, List.drop_drop, List.drop_drop]
          congr 1
          omega
      · simp only [if_neg hm]
        rcases hrec with h | ⟨k, hk⟩
        · left; exact h
        · right
          refine ⟨s + (j + 4) + k, ?_⟩
          rw [hk, List.drop_drop, List.drop_drop]
          congr 1
          omega
termination_by buf.length
decreasing_by
all_goals
  simp only [List.length_drop]
  omega

/-- Every frame emitted by the extraction loop has at least the minimum
plausible size: shorter marker-delimited ranges are silently skipped. -/
theorem extractFrames_min_length (m : Nat) (buf : List Nat) :
    ∀ f ∈ (extractFrames m buf).2, m ≤ f.length := by
  cases h1 : findPat startMarker buf with
  | none =>
    rw [extractFrames_no_start m buf h1]
    simp
  | some s =>
    have h1' : findPat [255, 216] buf = some s := by simpa [startMarker] using h1
    obtain ⟨hsl, hsd⟩ := findPat_pair_eq 255 216 buf s h1'
    cases h2 : findPat endMarker ((buf.drop s).drop 2) with
    | none =>
      rw [extractFrames_no_end m buf s h1 h2]
      simp
    | some j =>
      have hrec := extractFrames_min_length m ((buf.drop s).drop (j + 4))
      rw [extractFrames_step m buf s j h1 h2]
      by_cases hm : ((buf.drop s).take (j + 4)).length < m
      · simp only [if_pos hm]
        exact hrec
      · simp only [if_neg hm]
        intro f hf
        rcases List.mem_cons.1 hf with rfl | hf'
        · omega
        · exact hrec f hf'
termination_by buf.length
decreasing_by
all_goals
  simp only [List.length_drop]
  omega

/-- Chunkwise demuxing agrees with extraction over the whole byte stream,
starting from any retained buffer that is a fixed point of the loop, as
long as the size cap is never reached and no chunk (nor the buffer) ends
in the first start-marker byte 0xff. -/
theorem runDemux_join (cap m : Nat) : ∀ (chunks : List (List Nat)) (buf : List Nat),
    extractFrames m buf = (buf, []) →
    buf.getLast? ≠ some 255 →
    (∀ c ∈ chunks, c.getLast? ≠ some 255) →
    buf.length + chunks.flatten.length ≤ cap →
    runDemux cap m buf chunks = extractFrames m (buf ++ chunks.flatten) := by
  intro chunks
  induction chunks with
  | nil =>
    intro buf hfix _ _ _
    simp only [runDemux, List.flatten_nil, List.append_nil]
    exact hfix.symm
  | cons c cs ih =>
    intro buf hfix hbuf hend hlen
    have hjoin : (c :: cs).flatten = c ++ cs.flatten := by simp
    have hlenB : (buf ++ c).length ≤ cap := by
      rw [List.length_append]
      rw [hjoin, List.length_append] at hlen
      omega
    have hct : capTrim cap (buf ++ c) = buf ++ c := by
      rw [capTrim, if_neg (by omega)]
    have hBlast : (buf ++ c).getLast? ≠ some 255 := by
      by_cases hc : c = []
      · subst hc
        simpa using hbuf
      · rw [List.getLast?_append_of_ne_nil buf hc]
        exact hend c (List.mem_cons_self c cs)
    have hstr : ¬((buf ++ c).getLast? = some 255 ∧ (cs.flatten).head? = some 216) := by
      rintro ⟨hA, _⟩
      exact hBlast hA
    have hcomp := extractFrames_append m (buf ++ c) cs.flatten hstr
    have hfix' := extractFrames_leftover_fix m (buf ++ c)
    have hsuf := extractFrames_leftover_suffix m (buf ++ c)
    have hbuf' : (extractFrames m (buf ++ c)).1.getLast? ≠ some 255 := by
      rcases hsuf with h | ⟨k, hk⟩
      · rw [h]; simp
      · rw [hk]
        by_cases hne : (buf ++ c).drop k = []
        · rw [hne]; simp
        · rw [getLast?_drop_eq _ _ hne]; exact hBlast
    have hlen' : (extractFrames m (buf ++ c)).1.length + cs.flatten.length ≤ cap := by
      have hle : (extractFrames m (buf ++ c)).1.length ≤ (buf ++ c).length := by
        rcases hsuf with h | ⟨k, hk⟩
        · rw [h]; simp
        · rw [hk, List.length_drop]; omega
      rw [hjoin, List.length_append] at hlen
      rw [List.length_append] at hle
      rw [List.length_append] at hlenB
      omega
    have hih := ih (extractFrames m (buf ++ c)).1 hfix' hbuf'
      (fun d hd => hend d (List.mem_cons_of_mem c hd)) hlen'
    rw [hjoin, ← List.append_assoc, hcomp]
    simp only [runDemux, processChunk, hct, hih]

/-- Scanning over a run of zero bytes shifts the first occurrence of a
pattern whose first byte is nonzero. -/
theorem findPat_replicate_zero (x y : Nat) (hx : x ≠ 0) : ∀ (n : Nat) (t : List Nat),
    findPat [x, y] (List.replicate n 0 ++ t) = (findPat [x, y] t).map (· + n) := by
  intro n
  induction n with
  | zero =>
    intro t
    cases h : findPat [x, y] t <;> simp [h]
  | succ n ih =>
    intro t
    rw [List.replicate_succ, List.cons_append, findPat]
    have hp : ¬ [x, y].isPrefixOf (0 :: (List.replicate n 0 ++ t)) = true := by
      intro hcon
      obtain ⟨t', ht'⟩ := (isPrefixOf_pair x y _).1 hcon
      injection ht' with h0 _
      exact hx h0.symm
    rw [if_neg hp, ih t]
    cases h : findPat [x, y] t <;> simp
    omega

/-- rfind over a run of zero bytes finds nothing when the pattern starts
with a nonzero byte. -/
theorem rfindPat_replicate_zero (x y : Nat) (hx : x ≠ 0) : ∀ (n : Nat),
    rfindPat [x, y] (List.replicate n 0) = none := by
  intro n
  induction n with
  | zero => rfl
  | succ n ih =>
    rw [List.replicate_succ, rfindPat, ih]
    have hp : ¬ [x, y].isPrefixOf (0 :: List.replicate n 0) = true := by
      intro hcon
      obtain ⟨t', ht'⟩ := (isPrefixOf_pair x y _).1 hcon
      injection ht' with h0 _
      exact hx h0.symm
    simp [hp]

/-- Over a buffer that is a start marker followed by zeros, rfind locates
the marker at index 0. -/
theorem rfindPat_start_big (n : Nat) :
    rfindPat [255, 216] (255 :: 216 :: List.replicate n 0) = some 0 := by
  have h1 : rfindPat [255, 216] (216 :: List.replicate n 0) = none := by
    rw [rfindPat, rfindPat_replicate_zero 255 216 (by omega) n]
    have hp : ¬ [255, 216].isPrefixOf (216 :: List.replicate n 0) = true := by
      intro hcon
      obtain ⟨t', ht'⟩ := (isPrefixOf_pair 255 216 _).1 hcon
      injection ht' with h0 _
      omega
    simp [hp]
  rw [rfindPat, h1]
  have hp : [255, 216].isPrefixOf (255 :: 216 :: List.replicate n 0) = true :=
    (isPrefixOf_pair 255 216 _).2 ⟨List.replicate n 0, rfl⟩
  simp [hp]

/-- capTrim keeps a buffer whose length fits under the cap. -/
theorem capTrim_small (cap : Nat) (buf : List Nat) (h : buf.length ≤ cap) :
    capTrim cap buf = buf := by
  rw [capTrim, if_neg (by omega)]

/-- capTrim keeps a buffer whose only start marker sits at index 0, no
matter how long it is: rfind returns 0 and `last_start > 0` fails. -/
theorem capTrim_leading_marker (cap n : Nat) :
    capTrim cap (255 :: 216 :: List.replicate n 0) = 255 :: 216 :: List.replicate n 0 := by
  rw [capTrim]
  have hr : rfindPat startMarker (255 :: 216 :: List.replicate n 0) = some 0 := by
    simpa [startMarker] using rfindPat_start_big n
  rw [hr]
  split
  · simp
  · rfl

/-- A buffer that is a start marker followed by zeros and no end marker is
retained whole by the extraction loop and emits nothing. -/
theorem extractFrames_start_zeros (m n : Nat) :
    extractFrames m (255 :: 216 :: List.replicate n 0)
      = (255 :: 216 :: List.replicate n 0, []) := by
  have h1 : findPat startMarker (255 :: 216 :: List.replicate n 0) = some 0 := by
    simpa [startMarker] using findPat_cons_pair 255 216 (List.replicate n 0)
  have h2 : findPat endMarker
      (((255 :: 216 :: List.replicate n 0).drop 0).drop 2) = none := by
    show findPat endMarker (List.replicate n 0) = none
    show findPat [255, 217] (List.replicate n 0) = none
    have := findPat_replicate_zero 255 217 (by omega) n []
    simpa using this
  rw [extractFrames_no_end m _ 0 h1 h2, List.drop_zero]

/-- A complete marker-delimited frame of n + 4 bytes standing alone is
emitted whole when it meets the minimum size, leaving an empty buffer. -/
theorem extractFrames_big (m n : Nat) (hm : m ≤ n + 4) :
    extractFrames m (255 :: 216 :: (List.replicate n 0 ++ [255, 217]))
      = ([], [255 :: 216 :: (List.replicate n 0 ++ [255, 217])]) := by
  have h1 : findPat startMarker (255 :: 216 :: (List.replicate n 0 ++ [255, 217]))
      = some 0 := by
    simpa [startMarker] using findPat_cons_pair 255 216 (List.replicate n 0 ++ [255, 217])
  have h2 : findPat endMarker
      (((255 :: 216 :: (List.replicate n 0 ++ [255, 217])).drop 0).drop 2) = some n := by
    show findPat [255, 217] (List.replicate n 0 ++ [255, 217]) = some n
    rw [findPat_replicate_zero 255 217 (by omega) n [255, 217]]
    have : findPat [255, 217] [255, 217] = some 0 := findPat_cons_pair 255 217 []
    rw [this]
    simp
  have hlen : (255 :: 216 :: (List.replicate n 0 ++ [255, 217])).length = n + 4 := by
    simp only [List.length_cons, List.length_append, List.length_replicate, List.length_nil]
  have htake : (255 :: 216 :: (List.replicate n 0 ++ [255, 217])).take (n + 4)
      = 255 :: 216 :: (List.replicate n 0 ++ [255, 217]) := by
    rw [← hlen]
    exact List.take_length _
  have hdropall : (255 :: 216 :: (List.replicate n 0 ++ [255, 217])).drop (n + 4) = [] := by
    rw [← hlen]
    exact List.drop_length _
  rw [extractFrames_step m _ 0 n h1 h2, List.drop_zero, htake, hdropall,
    if_neg (by rw [hlen]; omega), extractFrames_no_start m [] rfl]

/-- A chunk that begins with the second start-marker byte and then holds
no start marker at all is thrown away entirely by the extraction loop. -/
theorem extractFrames_no_marker_chunk (m n : Nat) :
    extractFrames m (216 :: (List.replicate n 0 ++ [255, 217])) = ([], []) := by
  apply extractFrames_no_start
  show findPat [255, 216] (216 :: (List.replicate n 0 ++ [255, 217])) = none
  rw [findPat]
  have hp : ¬ [255, 216].isPrefixOf (216 :: (List.replicate n 0 ++ [255, 217])) = true := by
    intro hcon
    obtain ⟨t', ht'⟩ := (isPrefixOf_pair 255 216 _).1 hcon
    injection ht' with h0 _
    omega
  rw [if_neg hp, findPat_replicate_zero 255 216 (by omega) n [255, 217]]
  have : findPat [255, 216] [255, 217] = none := by decide
  rw [this]
  rfl

/-- The demuxer run on the single large self-contained frame emits it. -/
theorem demux_single_big :
    demux 2000000 5000 [255 :: 216 :: (List.replicate 4998 0 ++ [255, 217])]
      = ([], [255 :: 216 :: (List.replicate 4998 0 ++ [255, 217])]) := by
  rw [demux]
  simp only [runDemux, processChunk, List.nil_append]
  rw [capTrim_small 2000000 _
      (by simp only [List.length_cons, List.length_append, List.length_replicate,
        List.length_nil]; omega),
    extractFrames_big 5000 4998 (by omega)]
  rfl

/-- Fuel-indexed structural mirror of the extraction loop, used to
evaluate it on concrete buffers; with fuel at least the buffer length it
agrees with extractFrames. -/
def extractFramesFuel : Nat → Nat → List Nat → List Nat × List (List Nat)
  | 0, _, buf => (buf, [])
  | fuel + 1, m, buf =>
    match findPat startMarker buf with
    | none => ([], [])
    | some s =>
      match findPat endMarker ((buf.drop s).drop 2) with
      | none => (buf.drop s, [])
      | some j =>
        if ((buf.drop s).take (j + 4)).length < m then
          extractFramesFuel fuel m ((buf.drop s).drop (j + 4))
        else
          ((extractFramesFuel fuel m ((buf.drop s).drop (j + 4))).1,
            (buf.drop s).take (j + 4) :: (extractFramesFuel fuel m ((buf.drop s).drop (j + 4))).2)

/-- The fuel mirror computes extractFrames once the fuel covers the buffer
length. -/
theorem extractFrames_eq_fuel (m : Nat) : ∀ (fuel : Nat) (buf : List Nat),
    buf.length ≤ fuel → extractFrames m buf = extractFramesFuel fuel m buf := by
  intro fuel
  induction fuel with
  | zero =>
    intro buf h
    have hnil : buf = [] := by
      cases buf with
      | nil => rfl
      | cons a t => simp at h
    subst hnil
    rw [extractFrames_no_start m [] rfl]
    rfl
  | succ fuel ih =>
    intro buf h
    cases h1 : findPat startMarker buf with
    | none =>
      rw [extractFrames_no_start m buf h1]
      simp only [extractFramesFuel, h1]
    | some s =>
      cases h2 : findPat endMarker ((buf.drop s).drop 2) with
      | none =>
        rw [extractFrames_no_end m buf s h1 h2]
        simp only [extractFramesFuel, h1, h2]
      | some j =>
        have hsl := (findPat_pair_eq 255 216 buf s (by simpa [startMarker] using h1)).1
        have hr : ((buf.drop s).drop (j + 4)).length ≤ fuel := by
          simp only [List.length_drop]
          omega
        rw [extractFrames_step m buf s j h1 h2, ih _ hr]
        simp only [extractFramesFuel, h1, h2]

/-- Evaluation form: extractFrames computes via the fuel mirror at fuel
equal to the buffer length. -/
theorem extractFrames_eval (m : Nat) (buf : List Nat) :
    extractFrames m buf = extractFramesFuel buf.length m buf :=
  extractFrames_eq_fuel m buf.length buf (Nat.le_refl _)

/-- capTrim never lengthens the buffer. -/
theorem capTrim_length_le (cap : Nat) (buf : List Nat) :
    (capTrim cap buf).length ≤ buf.length := by
  rw [capTrim]
  split
  · split
    · split
      · simp [List.length_drop]
      · exact Nat.le_refl _
    · exact Nat.le_refl _
  · exact Nat.le_refl _

/-- Structural mirror of processChunk via the fuel mirror. -/
def processChunkFuel (cap m : Nat) (buf chunk : List Nat) : List Nat × List (List Nat) :=
  extractFramesFuel (buf ++ chunk).length m (capTrim cap (buf ++ chunk))

/-- Structural mirror of runDemux via the fuel mirror. -/
def runDemuxFuel (cap m : Nat) (buf : List Nat) : List (List Nat) → List Nat × List (List Nat)
  | [] => (buf, [])
  | c :: cs =>
    ((runDemuxFuel cap m (processChunkFuel cap m buf c).1 cs).1,
      (processChunkFuel cap m buf c).2 ++ (runDemuxFuel cap m (processChunkFuel cap m buf c).1 cs).2)

/-- processChunk computes via its structural mirror. -/
theorem processChunk_eq_fuel (cap m : Nat) (buf chunk : List Nat) :
    processChunk cap m buf chunk = processChunkFuel cap m buf chunk := by
  rw [processChunk, processChunkFuel]
  exact extractFrames_eq_fuel m _ _ (capTrim_length_le cap (buf ++ chunk))

/-- runDemux computes via its structural mirror. -/
theorem runDemux_eq_fuel (cap m : Nat) : ∀ (chunks : List (List Nat)) (buf : List Nat),
    runDemux cap m buf chunks = runDemuxFuel cap m buf chunks := by
  intro chunks
  induction chunks with
  | nil => intro buf; rfl
  | cons c cs ih =>
    intro buf
    show ((runDemux cap m (processChunk cap m buf c).1 cs).1,
        (processChunk cap m buf c).2 ++ (runDemux cap m (processChunk cap m buf c).1 cs).2)
      = ((runDemuxFuel cap m (processChunkFuel cap m buf c).1 cs).1,
        (processChunkFuel cap m buf c).2
          ++ (runDemuxFuel cap m (processChunkFuel cap m buf c).1 cs).2)
    rw [processChunk_eq_fuel, ih]

/-- The demuxer computes via its structural mirror; concrete runs are
evaluated through this equation. -/
theorem demux_eval (cap m : Nat) (chunks : List (List Nat)) :
    demux cap m chunks = runDemuxFuel cap m [] chunks :=
  runDemux_eq_fuel cap m chunks []

/-- Every frame emitted across a whole demux run reaches the minimum
plausible size. -/
theorem runDemux_min_length (cap m : Nat) : ∀ (chunks : List (List Nat)) (buf f : List Nat),
    f ∈ (runDemux cap m buf chunks).2 → m ≤ f.length := by
  intro chunks
  induction chunks with
  | nil =>
    intro buf f hf
    simp [runDemux] at hf
  | cons c cs ih =>
    intro buf f hf
    simp only [runDemux, processChunk] at hf
    rcases List.mem_append.1 hf with h | h
    · exact extractFrames_min_length m _ f h
    · exact ih _ f h

/-- Feeding the start marker split across two chunks loses the frame: the
first chunk (the lone byte 0xff) is cleared because it holds no complete
start marker, and the second chunk alone holds no start marker either. -/
theorem demux_split_marker :
    demux 2000000 5000 [[255], 216 :: (List.replicate 4998 0 ++ [255, 217])] = ([], []) := by
  have p1 : processChunk 2000000 5000 [] [255] = ([], []) := by
    rw [processChunk_eq_fuel]
    decide
  have p2 : processChunk 2000000 5000 [] (216 :: (List.replicate 4998 0 ++ [255, 217]))
      = ([], []) := by
    rw [processChunk, List.nil_append,
      capTrim_small 2000000 _ (by simp only [List.length_cons, List.length_append,
        List.length_replicate, List.length_nil]; omega),
      extractFrames_no_marker_chunk 5000 4998]
  rw [demux]
  simp only [runDemux, p1, p2]
  rfl

/-- In the Pi-camera loop the cache at each yield holds exactly the
yielded bytes and the freshly written timestamp. -/
theorem piStreamLoop_cache : ∀ (frames : List (List Nat × Nat)) (c : FrameCache),
    ∀ e ∈ piStreamLoop c frames,
      e.cacheAtYield.last_frame = some e.yielded
        ∧ e.cacheAtYield.last_frame_time = e.now := by
  intro frames
  induction frames with
  | nil =>
    intro c e he
    simp [piStreamLoop] at he
  | cons p rest ih =>
    intro c e he
    rcases List.mem_cons.1 he with rfl | he'
    · exact ⟨rfl, rfl⟩
    · exact ih _ e he'

/-- The Pi-camera loop yields the demuxed frames in order. -/
theorem piStreamLoop_order : ∀ (frames : List (List Nat × Nat)) (c : FrameCache),
    (piStreamLoop c frames).map YieldEvent.yielded = frames.map Prod.fst := by
  intro frames
  induction frames with
  | nil => intro c; rfl
  | cons p rest ih =>
    intro c
    simp only [piStreamLoop, List.map_cons, ih]

/-- In the USB loop the cache at each yield holds exactly the yielded
bytes, while last_frame_time keeps its initial value: the USB branch
never refreshes it. -/
theorem usbStreamLoop_cache : ∀ (inputs : List (Option (List Nat) × Nat)) (c : FrameCache),
    ∀ e ∈ usbStreamLoop c inputs,
      e.cacheAtYield.last_frame = some e.yielded
        ∧ e.cacheAtYield.last_frame_time = c.last_frame_time := by
  intro inputs
  induction inputs with
  | nil =>
    intro c e he
    simp [usbStreamLoop] at he
  | cons p rest ih =>
    intro c e he
    match p with
    | (none, t) => exact ih c e he
    | (some f, t) =>
      rcases List.mem_cons.1 he with rfl | he'
      · exact ⟨rfl, rfl⟩
      · exact ih (cacheUpdateUsb c f) e he'

/-- The USB loop yields exactly the frames the device produced, in order,
skipping the empty polls. -/
theorem usbStreamLoop_order : ∀ (inputs : List (Option (List Nat) × Nat)) (c : FrameCache),
    (usbStreamLoop c inputs).map YieldEvent.yielded = inputs.filterMap Prod.fst := by
  intro inputs
  induction inputs with
  | nil => intro c; rfl
  | cons p rest ih =>
    intro c
    match p with
    | (none, t) => simp only [usbStreamLoop, List.filterMap_cons, ih]
    | (some f, t) => simp only [usbStreamLoop, List.filterMap_cons, List.map_cons, ih]

/-- Claim C1 counterexample: the two-chunk input that splits the start
marker 0xff 0xd8 across the chunk boundary.  Chunkwise the demuxer emits
no frame (the lone 0xff is discarded when the buffer is cleared), while
the concatenated run emits the complete 5002-byte frame. -/
theorem C1_counterexample :
    (demux 2000000 5000 [[255], 216 :: (List.replicate 4998 0 ++ [255, 217])]).2
      ≠ (demux 2000000 5000
          [[[255], 216 :: (List.replicate 4998 0 ++ [255, 217])].flatten]).2 := by
  intro hcon
  have hflat : ([[255], 216 :: (List.replicate 4998 0 ++ [255, 217])] : List (List Nat)).flatten
      = 255 :: 216 :: (List.replicate 4998 0 ++ [255, 217]) := by
    simp only [List.flatten_cons, List.flatten_nil, List.append_nil, List.singleton_append]
  rw [demux_split_marker, hflat, demux_single_big] at hcon
  exact List.noConfusion hcon

/-- Claim C1 (amended): chunk-boundary independence of demuxing holds for
every chunk sequence in which no chunk ends with the byte 0xff (so a
start marker never straddles a chunk boundary into a cleared buffer) and
whose total length stays within the buffer cap: the chunkwise run emits
exactly the frames of the single concatenated run. -/
theorem C1_chunk_boundary_amended (cap m : Nat) (chunks : List (List Nat))
    (hend : ∀ c ∈ chunks, c.getLast? ≠ some 255)
    (hlen : chunks.flatten.length ≤ cap) :
    (demux cap m chunks).2 = (demux cap m [chunks.flatten]).2 := by
  rw [demux, demux,
    runDemux_join cap m chunks [] (extractFrames_no_start m [] rfl) (by simp) hend
      (by simpa using hlen)]
  simp only [runDemux, processChunk, List.nil_append, List.append_nil,
    capTrim_small cap chunks.flatten hlen]

/-- Witness for the amended C1 at the concrete two-chunk scenario of the
spec (no chunk ends in 0xff, total length far below the cap). -/
theorem C1_chunk_boundary_amended_witness :
    (∀ c ∈ ([[255, 216, 65, 65, 65], [66, 66, 255, 217, 255, 216, 67, 67, 67, 67, 255, 217]] :
        List (List Nat)), c.getLast? ≠ some 255)
      ∧ ([[255, 216, 65, 65, 65], [66, 66, 255, 217, 255, 216, 67, 67, 67, 67, 255, 217]] :
          List (List Nat)).flatten.length ≤ 2000000
      ∧ (demux 2000000 1
          [[255, 216, 65, 65, 65], [66, 66, 255, 217, 255, 216, 67, 67, 67, 67, 255, 217]]).2
        = (demux 2000000 1
            [[[255, 216, 65, 65, 65],
              [66, 66, 255, 217, 255, 216, 67, 67, 67, 67, 255, 217]].flatten]).2 :=
  ⟨by decide, by decide,
    C1_chunk_boundary_amended 2000000 1 _ (by decide) (by decide)⟩

/-- Claim C2 counterexample: a buffer holding one start marker at index 0
followed by 2000001 zero bytes exceeds the 2000000-byte cap and holds no
complete frame, yet nothing is discarded (rfind returns 0 and
`last_start > 0` fails) and the retained buffer keeps a length above the
cap, so the buffer is not bounded. -/
theorem C2_counterexample :
    (demux 2000000 5000 [255 :: 216 :: List.replicate 2000001 0]).1
        = 255 :: 216 :: List.replicate 2000001 0
      ∧ 2000000 < (demux 2000000 5000 [255 :: 216 :: List.replicate 2000001 0]).1.length := by
  have p : processChunk 2000000 5000 [] (255 :: 216 :: List.replicate 2000001 0)
      = (255 :: 216 :: List.replicate 2000001 0, []) := by
    rw [processChunk, List.nil_append, capTrim_leading_marker, extractFrames_start_zeros]
  have h : demux 2000000 5000 [255 :: 216 :: List.replicate 2000001 0]
      = (255 :: 216 :: List.replicate 2000001 0, []) := by
    rw [demux]
    simp only [runDemux, p]
    rfl
  refine ⟨by rw [h], ?_⟩
  rw [h]
  show 2000000 < (255 :: 216 :: List.replicate 2000001 0).length
  rw [List.length_cons, List.length_cons, List.length_replicate]
  omega

/-- Claim C2 (amended): the two discard mechanisms that do hold.  When the
scan loop finds no start marker the buffer is reset to empty; and when
the buffer exceeds the cap with its last start marker at a strictly
positive index, the undecodable prefix before that marker is discarded.
(The buffer is not bounded in general: a leading start marker with no
following end marker is retained in full, as the counterexample shows.) -/
theorem C2_buffer_reset_amended (m cap : Nat) (b1 b2 : List Nat) (k : Nat) :
    (findPat startMarker b1 = none → extractFrames m b1 = ([], []))
      ∧ (b2.length > cap → rfindPat startMarker b2 = some k → 0 < k →
          capTrim cap b2 = b2.drop k) := by
  constructor
  · intro h
    exact extractFrames_no_start m b1 h
  · intro hl hr hk
    rw [capTrim, if_pos hl]
    simp only [hr]
    rw [if_pos hk]

/-- Witness for the amended C2: a buffer with no start marker is cleared,
and a four-byte buffer over a three-byte cap is trimmed to its last start
marker at index 1. -/
theorem C2_buffer_reset_amended_witness :
    extractFrames 5000 [0] = ([], [])
      ∧ capTrim 3 [0, 255, 216, 0] = [0, 255, 216, 0].drop 1 :=
  ⟨(C2_buffer_reset_amended 5000 3 [0] [0, 255, 216, 0] 1).1 (by decide),
    (C2_buffer_reset_amended 5000 3 [0] [0, 255, 216, 0] 1).2 (by decide) (by decide)
      (by decide)⟩

/-- Claim C3: fed the two-chunk sequence [b"\xff\xd8AAA",
b"BB\xff\xd9\xff\xd8CCCC\xff\xd9"] with a minimum frame size of one byte,
the demuxer emits exactly the frames b"\xff\xd8AAABB\xff\xd9" then
b"\xff\xd8CCCC\xff\xd9". -/
theorem C3_two_chunk_scenario :
    (demux 2000000 1
        [[255, 216, 65, 65, 65], [66, 66, 255, 217, 255, 216, 67, 67, 67, 67, 255, 217]]).2
      = [[255, 216, 65, 65, 65, 66, 66, 255, 217], [255, 216, 67, 67, 67, 67, 255, 217]] := by
  rw [demux_eval]
  decide

/-- Claim C4: a marker-delimited byte range shorter than the 5000-byte
minimum is never emitted by the demuxer (every emitted frame has length
at least 5000), and when such a short range is found it is silently
skipped while extraction continues on the remaining buffer. -/
theorem C4_min_frame_size :
    (∀ (chunks : List (List Nat)) (f : List Nat),
        f ∈ (demux 2000000 5000 chunks).2 → 5000 ≤ f.length)
      ∧ (∀ (m : Nat) (buf : List Nat) (s j : Nat),
          findPat startMarker buf = some s →
          findPat endMarker ((buf.drop s).drop 2) = some j →
          ((buf.drop s).take (j + 4)).length < m →
          extractFrames m buf = extractFrames m ((buf.drop s).drop (j + 4))) := by
  constructor
  · intro chunks f hf
    exact runDemux_min_length 2000000 5000 chunks [] f hf
  · intro m buf s j h1 h2 hm
    rw [extractFrames_step m buf s j h1 h2, if_pos hm]

/-- Witness for C4: the emitted 5002-byte frame really is in a demux run
and meets the bound, and the four-byte frame b"\xff\xd8\xff\xd9" is
skipped with extraction continuing on the rest of the buffer. -/
theorem C4_min_frame_size_witness :
    5000 ≤ (255 :: 216 :: (List.replicate 4998 0 ++ [255, 217])).length
      ∧ extractFrames 5000 [255, 216, 255, 217]
        = extractFrames 5000 ((([255, 216, 255, 217] : List Nat).drop 0).drop (0 + 4)) := by
  have hmem : (255 :: 216 :: (List.replicate 4998 0 ++ [255, 217]))
      ∈ (demux 2000000 5000 [255 :: 216 :: (List.replicate 4998 0 ++ [255, 217])]).2 := by
    rw [demux_single_big]
    exact List.mem_singleton_self _
  exact ⟨C4_min_frame_size.1 [255 :: 216 :: (List.replicate 4998 0 ++ [255, 217])] _ hmem,
    C4_min_frame_size.2 5000 [255, 216, 255, 217] 0 0 (by decide) (by decide) (by decide)⟩

/-- Claim C5: when the capture process has exited within the startup
window, the startup probe raises an error whose payload carries the
captured stderr text, and the HTTP-facing consumer receives exactly one
plain-text error frame over the stream channel in place of image frames,
rather than an exception. -/
theorem C5_startup_error_frame (s : String) (rest : List StreamEvent) :
    startupProbe (some { exited := true, stderrText := s })
        = Except.error ("La camera n a pas pu demarrer: " ++ s)
      ∧ streamStartup (some { exited := true, stderrText := s }) rest
        = [StreamEvent.errorFrame
            ("Erreur camera: " ++ ("La camera n a pas pu demarrer: " ++ s))] := by
  exact ⟨rfl, rfl⟩

/-- Claim C6: stop_camera_process never raises and always clears both
tracked handles, whatever the tracked state and however terminate and
kill behave; in particular it is idempotent and a no-op when nothing is
tracked. -/
theorem C6_stop_idempotent (st : CameraState) (b : StopBehavior) :
    stop_camera_process st b
        = Except.ok { camera_process := none, usb_camera := none }
      ∧ stop_camera_process { camera_process := none, usb_camera := none } b
        = Except.ok { camera_process := none, usb_camera := none } := by
  refine ⟨?_, rfl⟩
  rw [stop_camera_process]
  cases st.camera_process with
  | none => rfl
  | some p =>
    rw [terminateAttempt]
    by_cases ht : b.terminateRaises
    · rw [if_pos ht]
      rw [killAttempt]
      by_cases hk : b.killRaises
      · rw [if_pos hk]
      · rw [if_neg hk]
    · rw [if_neg ht]

/-- Claim C7: when the tracked process is alive the ensure-started block
reuses it without spawning, and two ensure-started calls in immediate
succession leave exactly the process of the first call with no second
spawn. -/
theorem C7_single_live_process (t : Option TrackedProc) (f1 f2 f3 : Nat) (p : TrackedProc) :
    (p.alive = true → ensure_started (some p) f3 = (some p, false))
      ∧ ensure_started (ensure_started t f1).1 f2 = ((ensure_started t f1).1, false) := by
  constructor
  · intro h
    simp [ensure_started, h]
  · cases t with
    | none => simp [ensure_started]
    | some q =>
      by_cases hq : q.alive <;> simp [ensure_started, hq]

/-- Witness for C7 at a concrete alive process and a concrete double
start from an untracked state. -/
theorem C7_single_live_process_witness :
    ensure_started (some { pid := 7, alive := true }) 9
        = (some { pid := 7, alive := true }, false)
      ∧ ensure_started (ensure_started none 4).1 5 = ((ensure_started none 4).1, false) :=
  ⟨(C7_single_live_process none 4 5 9 { pid := 7, alive := true }).1 rfl,
    (C7_single_live_process none 4 5 9 { pid := 7, alive := true }).2⟩

/-- Claim C8: the still-capture read returns the explicit unavailable
signal before any update, and after updates it returns exactly the bytes
of the last cache write, for both the Pi and the USB update paths. -/
theorem C8_frame_cache_read (c : FrameCache) (b1 b2 : List Nat) (t1 t2 : Nat) :
    capture_photo_read initialCache = CaptureResult.unavailable
      ∧ capture_photo_read (cacheUpdatePi c b1 t1) = CaptureResult.saved b1
      ∧ capture_photo_read (cacheUpdatePi (cacheUpdatePi c b1 t1) b2 t2)
        = CaptureResult.saved b2
      ∧ capture_photo_read (cacheUpdateUsb c b1) = CaptureResult.saved b1 := by
  exact ⟨rfl, rfl, rfl, rfl⟩

/-- Claim C9: the liveness probe reports active exactly when the last
frame is less than three seconds old; one second after an update it is
active, five seconds after it is inactive, and before any frame has
arrived (timestamp still 0, at least three seconds past the epoch) it is
inactive. -/
theorem C9_liveness_window (t now T : Nat) :
    (camera_status_active t now = true ↔ now - t < 3)
      ∧ camera_status_active T (T + 1) = true
      ∧ camera_status_active T (T + 5) = false
      ∧ (3 ≤ now → camera_status_active 0 now = false) := by
  refine ⟨?_, ?_, ?_, ?_⟩
  · simp [camera_status_active]
  · simp only [camera_status_active, decide_eq_true_eq]
    omega
  · simp only [camera_status_active, decide_eq_false_iff_not]
    omega
  · intro h
    simp only [camera_status_active, decide_eq_false_iff_not]
    omega

/-- Witness for C9 at concrete times: probe at one and five seconds after
a frame, and at ten seconds past the epoch with no frame ever seen. -/
theorem C9_liveness_window_witness :
    (camera_status_active 4 10 = true ↔ 10 - 4 < 3)
      ∧ camera_status_active 20 21 = true
      ∧ camera_status_active 20 25 = false
      ∧ camera_status_active 0 10 = false :=
  ⟨(C9_liveness_window 4 10 20).1, (C9_liveness_window 4 10 20).2.1,
    (C9_liveness_window 4 10 20).2.2.1,
    (C9_liveness_window 4 10 20).2.2.2 (by omega)⟩

/-- Claim C10 counterexample: in the USB branch the cache timestamp is
not refreshed when a frame is stored and yielded — the event observed at
time 7 still carries the initial timestamp 0 — so the claim that at every
yield the timestamp has just been refreshed fails for the USB source. -/
theorem C10_counterexample :
    ¬(∀ e ∈ usbStreamLoop initialCache [(some [1], 7)],
        e.cacheAtYield.last_frame = some e.yielded
          ∧ e.cacheAtYield.last_frame_time = e.now) := by
  decide

/-- Claim C10 (amended): every frame yielded by either streaming loop is
stored in the cache at the moment of the yield, and both loops yield the
incoming frames in demux order; the Pi loop also refreshes the cache
timestamp at each yield, while the USB loop leaves the timestamp at its
initial value. -/
theorem C10_cache_yield_amended (c : FrameCache) (frames : List (List Nat × Nat))
    (inputs : List (Option (List Nat) × Nat)) :
    (∀ e ∈ piStreamLoop c frames,
        e.cacheAtYield.last_frame = some e.yielded
          ∧ e.cacheAtYield.last_frame_time = e.now)
      ∧ (piStreamLoop c frames).map YieldEvent.yielded = frames.map Prod.fst
      ∧ (∀ e ∈ usbStreamLoop c inputs,
          e.cacheAtYield.last_frame = some e.yielded
            ∧ e.cacheAtYield.last_frame_time = c.last_frame_time)
      ∧ (usbStreamLoop c inputs).map YieldEvent.yielded = inputs.filterMap Prod.fst := by
  exact ⟨piStreamLoop_cache frames c, piStreamLoop_order frames c,
    usbStreamLoop_cache inputs c, usbStreamLoop_order inputs c⟩

/-- Witness for the amended C10 at one concrete frame through each loop. -/
theorem C10_cache_yield_amended_witness :
    (YieldEvent.mk (FrameCache.mk (some [1, 2]) 5) [1, 2] 5).cacheAtYield.last_frame
        = some [1, 2]
      ∧ (piStreamLoop initialCache [([1, 2], 5)]).map YieldEvent.yielded = [[1, 2]]
      ∧ (YieldEvent.mk (FrameCache.mk (some [3]) 0) [3] 2).cacheAtYield.last_frame_time
        = initialCache.last_frame_time :=
  ⟨((C10_cache_yield_amended initialCache [([1, 2], 5)] [(none, 1), (some [3], 2)]).1
      (YieldEvent.mk (FrameCache.mk (some [1, 2]) 5) [1, 2] 5) (by decide)).1,
    (C10_cache_yield_amended initialCache [([1, 2], 5)] [(none, 1), (some [3], 2)]).2.1,
    ((C10_cache_yield_amended initialCache [([1, 2], 5)] [(none, 1), (some [3], 2)]).2.2.1
      (YieldEvent.mk (FrameCache.mk (some [3]) 0) [3] 2) (by decide)).2⟩

end SimpleBooth
